import Mathlib

/-!
Verification development for the Artemist tick-by-tick backtesting engine.

The definitions below are a shallow embedding of the C++ sources:
MarketDataReader (memory-mapped CSV tick source), RollingStatistics
(Welford fill phase plus EWMA steady state), SignalGenerator (three-state
signal machine), Backtester (execution and accounting engine) and
LockFreeQueue (bounded MP/SC ring).  IEEE doubles are modelled as exact
rationals (with real-valued square roots where the code calls std::sqrt),
int64_t as Int and size_t as Nat with explicit wrap-around where overflow
matters.  C++ exceptions are modelled with Except.
-/

deriving instance DecidableEq for Except

namespace Artemist

/-! ### Tick record (MarketDataReader.hpp) -/

/-- One quote record: timestamp (int64 microseconds), bid, ask, volume. -/
structure Tick where
  timestamp : Int
  bid : ℚ
  ask : ℚ
  volume : Int
deriving DecidableEq, Repr

/-- Mid price, from the source: (bid + ask) / 2.0. -/
def Tick.mid (t : Tick) : ℚ := (t.bid + t.ask) / 2

/-! ### Numeric parsing (std::stoll / std::stod as used by parseLine)

std::stoll and std::stod skip leading whitespace, accept an optional
sign, and require at least one digit of mantissa; otherwise they throw
std::invalid_argument (modelled as Except.error).  Trailing characters
after the parsed prefix are ignored.  stoll additionally throws
std::out_of_range when the value does not fit in int64_t.  The stod
model covers plain decimal notation with an optional exponent; hexfloat
and inf/nan spellings are not used by this repository's data format. -/

/-- Characters treated as whitespace by the "C" locale isspace. -/
def charIsSpace (c : Char) : Bool :=
  c = ' ' ∨ c = '\t' ∨ c = '\n' ∨ c = Char.ofNat 11 ∨ c = Char.ofNat 12 ∨ c = '\r'

/-- Value of a digit run, most significant first. -/
def digitsToNat (ds : List Char) : Nat :=
  ds.foldl (fun acc c => 10 * acc + (c.toNat - 48)) 0

/-- Optional sign prefix: returns the sign and the remaining characters. -/
def readSign (cs : List Char) : Int × List Char :=
  match cs with
  | '+' :: rest => (1, rest)
  | '-' :: rest => (-1, rest)
  | _ => (1, cs)

/-- Model of std::stoll. -/
def stoll (cs0 : List Char) : Except Unit Int :=
  let cs := cs0.dropWhile charIsSpace
  let sc := readSign cs
  let ds := sc.2.takeWhile Char.isDigit
  if ds.isEmpty then .error ()
  else
    let v : Int := sc.1 * (digitsToNat ds : Int)
    if v < -(2 ^ 63) ∨ (2 ^ 63 - 1 : Int) < v then .error () else .ok v

/-- Exponent part accepted by strtod after the mantissa; an incomplete
exponent is backtracked over (contributing 0) rather than failing. -/
def readExponent (cs : List Char) : Int :=
  match cs with
  | 'e' :: rest =>
    let sc := readSign rest
    let ds := sc.2.takeWhile Char.isDigit
    if ds.isEmpty then 0 else sc.1 * (digitsToNat ds : Int)
  | 'E' :: rest =>
    let sc := readSign rest
    let ds := sc.2.takeWhile Char.isDigit
    if ds.isEmpty then 0 else sc.1 * (digitsToNat ds : Int)
  | _ => 0

/-- Model of std::stod on decimal notation. -/
def stod (cs0 : List Char) : Except Unit ℚ :=
  let cs := cs0.dropWhile charIsSpace
  let sc := readSign cs
  let ip := sc.2.takeWhile Char.isDigit
  let rest1 := sc.2.dropWhile Char.isDigit
  let fpRest : List Char × List Char :=
    match rest1 with
    | '.' :: r => (r.takeWhile Char.isDigit, r.dropWhile Char.isDigit)
    | _ => ([], rest1)
  if ip.isEmpty ∧ fpRest.1.isEmpty then .error ()
  else
    let mant : ℚ := (digitsToNat ip : ℚ) + (digitsToNat fpRest.1 : ℚ) / 10 ^ fpRest.1.length
    .ok ((sc.1 : ℚ) * mant * 10 ^ readExponent fpRest.2)

/-- The sequence of tokens produced by repeated std::getline(iss, token,
comma) on the given characters: a token per delimiter, plus a final token
for a non-empty tail; getline fails (ends the sequence) at end of input. -/
def getlineSeq : List Char → List (List Char)
  | [] => []
  | c :: cs =>
    if c = ',' then [] :: getlineSeq cs
    else
      match getlineSeq cs with
      | [] => [[c]]
      | t :: ts => (c :: t) :: ts

/-! ### MarketDataReader -/

/-- MarketDataReader.parseLine: four comma-separated fields in the order
timestamp, bid, ask, volume.  Returns ok none when getline runs out of
fields (the source returns false and the line is skipped); propagates the
stoll/stod exception otherwise. -/
def parseLine (line : List Char) : Except Unit (Option Tick) :=
  match getlineSeq line with
  | t1 :: t2 :: t3 :: t4 :: _ => do
    let ts ← stoll t1
    let bid ← stod t2
    let ask ← stod t3
    let vol ← stoll t4
    pure (some ⟨ts, bid, ask, vol⟩)
  | t1 :: t2 :: t3 :: _ => do
    let _ ← stoll t1
    let _ ← stod t2
    let _ ← stod t3
    pure none
  | t1 :: t2 :: _ => do
    let _ ← stoll t1
    let _ ← stod t2
    pure none
  | t1 :: _ => do
    let _ ← stoll t1
    pure none
  | [] => pure none

/-- Index of the first newline in the list, if any (memchr). -/
def memchrNl : List Char → Option Nat
  | [] => none
  | c :: cs => if c = '\n' then some 0 else (memchrNl cs).map (· + 1)

/-- memchr for the newline starting at a position of the mapped data. -/
def findNl (data : List Char) (pos : Nat) : Option Nat :=
  (memchrNl (data.drop pos)).map (pos + ·)

/-- The reader state: the mapped bytes and the read cursor.  The mapping
itself (mmap / MapViewOfFile) is outside the model; a valid reader owns
the full file contents as data. -/
structure MarketDataReader where
  data : List Char
  pos : Nat
deriving DecidableEq, Repr

/-- Cursor position established by the constructor: just past the first
newline when one exists (header skip), otherwise 0.  The source guards
with nl < end, which always holds for a found newline. -/
def initPos (data : List Char) : Nat :=
  if data ≠ [] then
    match findNl data 0 with
    | some nl => if nl < data.length then nl + 1 else 0
    | none => 0
  else 0

/-- Cursor position established by reset(): position 0, then just past
the first newline when one exists. -/
def resetPos (data : List Char) : Nat :=
  if data ≠ [] then
    match findNl data 0 with
    | some nl => nl + 1
    | none => 0
  else 0

/-- MarketDataReader::next on (data, position): locates the next newline
(or end of data), trims one trailing CR, parses non-empty lines and
recurses past empty or field-deficient lines.  ok none models returning
false (end of stream), error models an escaping parse exception.  Fuel
bounds the recursion; data.length + 1 - pos suffices since the position
strictly increases on every recursive call. -/
def nextAux : Nat → List Char → Nat → Except Unit (Option (Tick × Nat))
  | 0, _, _ => .ok none
  | fuel + 1, data, pos =>
    if data.length ≤ pos then .ok none
    else
      let nl := (findNl data pos).getD data.length
      if nl ≤ pos then .ok none
      else
        let len0 := nl - pos
        let len := if data.get? (pos + len0 - 1) = some '\r' then len0 - 1 else len0
        if 0 < len then
          match parseLine ((data.drop pos).take len) with
          | .error e => .error e
          | .ok (some t) => .ok (some (t, nl + 1))
          | .ok none => nextAux fuel data (nl + 1)
        else nextAux fuel data (nl + 1)

/-- MarketDataReader::next. -/
def MarketDataReader.next (r : MarketDataReader) : Except Unit (Option (Tick × MarketDataReader)) :=
  match nextAux (r.data.length + 1 - r.pos) r.data r.pos with
  | .error e => .error e
  | .ok none => .ok none
  | .ok (some (t, p)) => .ok (some (t, ⟨r.data, p⟩))

/-- A freshly constructed reader over the given file contents. -/
def mkReader (data : List Char) : MarketDataReader := ⟨data, initPos data⟩

/-- MarketDataReader::reset: repositions the cursor; the mapped data is
untouched (no re-mapping). -/
def MarketDataReader.reset (r : MarketDataReader) : MarketDataReader :=
  ⟨r.data, resetPos r.data⟩

/-- Collect a full iteration pass: ticks yielded by repeated next() until
end of stream, or the escaping exception.  The fuel bounds the number of
yielded ticks, each of which advances the cursor by at least two. -/
def readTicksAux : Nat → List Char → Nat → Except Unit (List Tick)
  | 0, _, _ => .ok []
  | fuel + 1, data, pos =>
    match nextAux (data.length + 1 - pos) data pos with
    | .error _ => .error ()
    | .ok none => .ok []
    | .ok (some (t, pos')) =>
      match readTicksAux fuel data pos' with
      | .error _ => .error ()
      | .ok ts => .ok (t :: ts)

/-- All ticks of one iteration pass from the reader's current position. -/
def readAll (r : MarketDataReader) : Except Unit (List Tick) :=
  readTicksAux (r.data.length + 2) r.data r.pos

/-! ### RollingStatistics (RollingStatistics.hpp / .cpp)

The scalar accumulators only.  The source also keeps a ring buffer and a
write index, but the value read back from the buffer (oldValue) is never
used by the update, so neither affects any quantity modelled here. -/

structure RollingStatistics where
  windowSize : Nat
  count : Nat
  mean : ℚ
  variance : ℚ
  m2 : ℚ
deriving DecidableEq, Repr

/-- EWMA decay factor, set in the constructor: 2.0 / (windowSize + 1.0). -/
def alpha (windowSize : Nat) : ℚ := 2 / ((windowSize : ℚ) + 1)

/-- Constructor state: all accumulators zero. -/
def RollingStatistics.init (windowSize : Nat) : RollingStatistics :=
  ⟨windowSize, 0, 0, 0, 0⟩

/-- RollingStatistics::updateEWMA.  The source computes deltaMean but
never uses it; the count is incremented by update, not here. -/
def RollingStatistics.updateEWMA (s : RollingStatistics) (value : ℚ) : RollingStatistics :=
  let a := alpha s.windowSize
  let oldMean := s.mean
  let mean' := a * value + (1 - a) * oldMean
  let delta := value - oldMean
  let v := (1 - a) * (s.variance + a * delta * delta)
  { s with mean := mean', variance := if v < 0 then 0 else v }

/-- RollingStatistics::update: the count is incremented first (oldCount
is the pre-increment value); initial Welford fill below the window size,
EWMA afterwards. -/
def RollingStatistics.update (s : RollingStatistics) (value : ℚ) : RollingStatistics :=
  let oldCount := s.count
  if oldCount < s.windowSize then
    if oldCount = 0 then
      { s with count := oldCount + 1, mean := value, variance := 0, m2 := 0 }
    else
      let delta := value - s.mean
      let mean' := s.mean + delta / ((oldCount : ℚ) + 1)
      let delta2 := value - mean'
      { s with count := oldCount + 1, mean := mean',
               m2 := s.m2 + delta * delta2,
               variance := (s.m2 + delta * delta2) / ((oldCount : ℚ) + 1) }
  else
    { s.updateEWMA value with count := oldCount + 1 }

/-- RollingStatistics::stddev. -/
noncomputable def RollingStatistics.stddev (s : RollingStatistics) : ℝ :=
  Real.sqrt (s.variance : ℝ)

open Classical in
/-- RollingStatistics::zscore: (value - mean) / sd when sd exceeds 1e-10,
otherwise 0. -/
noncomputable def RollingStatistics.zscore (s : RollingStatistics) (value : ℚ) : ℝ :=
  if (1e-10 : ℝ) < s.stddev then ((value : ℝ) - (s.mean : ℝ)) / s.stddev else 0

/-- RollingStatistics::isReady: count at least the window size. -/
def RollingStatistics.isReady (s : RollingStatistics) : Bool :=
  s.windowSize ≤ s.count

/-! ### SignalGenerator (SignalGenerator.hpp / .cpp) -/

inductive Signal
  | FLAT
  | LONG
  | SHORT
deriving DecidableEq, Repr

structure SignalGenerator where
  threshold : ℝ
  currentSignal : Signal
  lastZScore : ℝ

open Classical in
/-- SignalGenerator::generate: returns the produced signal together with
the generator state after the call (the source mutates currentSignal_
and lastZScore_ in place and returns currentSignal_). -/
noncomputable def SignalGenerator.generate (g : SignalGenerator) (price : ℚ)
    (stats : RollingStatistics) : Signal × SignalGenerator :=
  if ¬ stats.isReady then (Signal.FLAT, g)
  else
    let z := stats.zscore price
    let next : Signal :=
      match g.currentSignal with
      | Signal.FLAT =>
        if z < -g.threshold then Signal.LONG
        else if g.threshold < z then Signal.SHORT
        else Signal.FLAT
      | Signal.LONG => if 0 ≤ z then Signal.FLAT else Signal.LONG
      | Signal.SHORT => if z ≤ 0 then Signal.FLAT else Signal.SHORT
    (next, { g with currentSignal := next, lastZScore := z })

open Classical in
/-- Modelled from the claim's transition table (spec section 4.3): the
successor state as a function of the current state, the threshold and
the z-score.  Used to compare the source's generate against the
specified table. -/
noncomputable def nextSignalSpec (current : Signal) (θ z : ℝ) : Signal :=
  match current with
  | Signal.FLAT =>
    if z < -θ then Signal.LONG else if θ < z then Signal.SHORT else Signal.FLAT
  | Signal.LONG => if 0 ≤ z then Signal.FLAT else Signal.LONG
  | Signal.SHORT => if z ≤ 0 then Signal.FLAT else Signal.SHORT

/-! ### Backtester (Backtester.hpp, Backtester.cpp)

Trade and the Backtester members are declared in Backtester.hpp (the
second document of src/unnamed/part_004); the fields below are those
declarations, with the const member tickSize_ kept as the separate
constant tickSize. -/

structure Trade where
  entryTime : Int
  exitTime : Int
  entryPrice : ℚ
  exitPrice : ℚ
  direction : Signal
  pnl : ℚ
  duration : Int
deriving DecidableEq, Repr

structure Backtester where
  commission : ℚ
  slippage : ℚ
  currentPosition : Signal
  entryPrice : ℚ
  entryTime : Int
  equity : ℚ
  peakEquity : ℚ
  maxDrawdown : ℚ
  trades : List Trade
  equityCurve : List ℚ
  equityTimestamps : List Int
deriving DecidableEq, Repr

/-- The const member initializer of Backtester.hpp
(src/unnamed/part_004:159): const double tickSize_ = 0.25. -/
def tickSize : ℚ := 1 / 4

/-- Backtester constructor: slippage is given in ticks and converted to
price units; starting capital 100000; one initial equity point (0, E0). -/
def Backtester.init (commission slippage : ℚ) : Backtester :=
  { commission := commission
    slippage := slippage * tickSize
    currentPosition := Signal.FLAT
    entryPrice := 0
    entryTime := 0
    equity := 100000
    peakEquity := 100000
    maxDrawdown := 0
    trades := []
    equityCurve := [100000]
    equityTimestamps := [0] }

/-- Backtester::getFillPrice: one tick of adverse slippage per leg. -/
def Backtester.getFillPrice (b : Backtester) (midPrice : ℚ) (direction : Signal) : ℚ :=
  if direction = Signal.LONG then midPrice + b.slippage
  else if direction = Signal.SHORT then midPrice - b.slippage
  else midPrice

/-- Backtester::closePosition: realizes PnL (ES multiplier 50, exit
commission), appends the Trade and flattens the position.  Neither the
equity curve nor peakEquity / maxDrawdown are touched here. -/
def Backtester.closePosition (b : Backtester) (price : ℚ) (timestamp : Int) : Backtester :=
  if b.currentPosition = Signal.FLAT then b
  else
    let exitDirection := if b.currentPosition = Signal.LONG then Signal.SHORT else Signal.LONG
    let fillPrice := b.getFillPrice price exitDirection
    let pnl0 : ℚ :=
      if b.currentPosition = Signal.LONG then (fillPrice - b.entryPrice) * 50
      else (b.entryPrice - fillPrice) * 50
    let pnl := pnl0 - b.commission
    { b with equity := b.equity + pnl
             trades := b.trades ++ [{ entryTime := b.entryTime, exitTime := timestamp,
                                      entryPrice := b.entryPrice, exitPrice := fillPrice,
                                      direction := b.currentPosition, pnl := pnl,
                                      duration := timestamp - b.entryTime }]
             currentPosition := Signal.FLAT }

/-- Backtester::updatePosition: no-op when the signal equals the current
position; otherwise close, optionally open (entry commission), append one
equity point, raise the peak and the drawdown. -/
def Backtester.updatePosition (b : Backtester) (price : ℚ) (timestamp : Int)
    (signal : Signal) : Backtester :=
  if signal = b.currentPosition then b
  else
    let b1 := if b.currentPosition ≠ Signal.FLAT then b.closePosition price timestamp else b
    let b2 :=
      if signal ≠ Signal.FLAT then
        { b1 with currentPosition := signal
                  entryPrice := b1.getFillPrice price signal
                  entryTime := timestamp
                  equity := b1.equity - b1.commission }
      else b1
    let b3 := { b2 with equityCurve := b2.equityCurve ++ [b2.equity]
                        equityTimestamps := b2.equityTimestamps ++ [timestamp] }
    let b4 := if b3.peakEquity < b3.equity then { b3 with peakEquity := b3.equity } else b3
    let dd := (b4.peakEquity - b4.equity) / b4.peakEquity
    if b4.maxDrawdown < dd then { b4 with maxDrawdown := dd } else b4

/-! ### The run pipeline (Backtester::run)

The reader is abstracted as the list of ticks it yields; run resets the
accounting state, folds the per-tick pipeline over the stream and finally
force-closes any open position at the last observed mid and timestamp. -/

structure PipelineState where
  stats : RollingStatistics
  gen : SignalGenerator
  bt : Backtester

/-- One iteration of the run loop: stats update with the mid, signal
generation, position update. -/
noncomputable def stepTick (st : PipelineState) (tick : Tick) : PipelineState :=
  let midPrice := tick.mid
  let stats := st.stats.update midPrice
  let gres := st.gen.generate midPrice stats
  { stats := stats, gen := gres.2, bt := st.bt.updatePosition midPrice tick.timestamp gres.1 }

/-- The run loop over a tick stream. -/
noncomputable def runTicks (st : PipelineState) (ticks : List Tick) : PipelineState :=
  ticks.foldl stepTick st

/-- The state set up at the top of run: fresh statistics with the
hard-coded window of 20000, a FLAT generator with the given threshold,
and the reset accounting state. -/
noncomputable def initState (commission slippage : ℚ) (θ : ℝ) : PipelineState :=
  { stats := RollingStatistics.init 20000
    gen := { threshold := θ, currentSignal := Signal.FLAT, lastZScore := 0 }
    bt := Backtester.init commission slippage }

/-- Backtester::run on a tick stream: the loop, then the end-of-stream
force-close of an open position at the last tick's mid and timestamp. -/
noncomputable def runBacktest (commission slippage : ℚ) (θ : ℝ) (ticks : List Tick) : PipelineState :=
  let st := runTicks (initState commission slippage θ) ticks
  match ticks.getLast? with
  | some last =>
    if st.bt.currentPosition ≠ Signal.FLAT then
      { st with bt := st.bt.closePosition last.mid last.timestamp }
    else st
  | none => st

/-- Timestamps of the ticks at which the run loop performs a position
transition (the generated signal differs from the current position). -/
noncomputable def transitionStamps : PipelineState → List Tick → List Int
  | _, [] => []
  | st, t :: rest =>
    let stats := st.stats.update t.mid
    let gres := st.gen.generate t.mid stats
    (if gres.1 ≠ st.bt.currentPosition then [t.timestamp] else []) ++
      transitionStamps (stepTick st t) rest

/-- Modelled from the claim: the timestamps of every position transition
of a run, the end-of-stream force-close included. -/
noncomputable def claimedTransitionStamps (commission slippage : ℚ) (θ : ℝ)
    (ticks : List Tick) : List Int :=
  let st := runTicks (initState commission slippage θ) ticks
  transitionStamps (initState commission slippage θ) ticks ++
    (match ticks.getLast? with
     | some last => if st.bt.currentPosition ≠ Signal.FLAT then [last.timestamp] else []
     | none => [])

/-! ### Metrics aggregation (Backtester::calculateMetrics)

PerformanceMetrics is declared in Backtester.hpp (the second document
of src/unnamed/part_004); the fields mirror that declaration. -/

structure PerformanceMetrics where
  totalReturn : ℝ
  volatility : ℝ
  sharpeRatio : ℝ
  maxDrawdown : ℚ
  winRate : ℝ
  avgTradeLength : ℝ
  totalTrades : Nat
  winningTrades : Nat
  totalTicks : Nat
  ticksPerSecond : ℝ

/-- Per-sample equity returns over adjacent equity-curve points with a
positive predecessor. -/
def equityReturns (curve : List ℚ) : List ℚ :=
  (curve.zip curve.tail).filterMap fun p => if 0 < p.1 then some ((p.2 - p.1) / p.1) else none

/-- Plain average of a list of rationals. -/
def listMeanQ (xs : List ℚ) : ℚ := xs.sum / (xs.length : ℚ)

/-- Population variance of a list of rationals. -/
def populationVarQ (xs : List ℚ) : ℚ :=
  ((xs.map (fun r => (r - listMeanQ xs) ^ 2)).sum) / (xs.length : ℚ)

open Classical in
/-- Backtester::calculateMetrics. -/
noncomputable def Backtester.calculateMetrics (b : Backtester) (startTime endTime : Int)
    (tickCount : Nat) : PerformanceMetrics :=
  let ticksPerSecond : ℝ :=
    if startTime < endTime then
      let seconds : ℝ := ((endTime - startTime : Int) : ℝ) / 1000000
      if 0 < seconds then (tickCount : ℝ) / seconds else 0
    else 0
  if b.trades = [] then
    { totalReturn := 0, volatility := 0, sharpeRatio := 0, maxDrawdown := b.maxDrawdown,
      winRate := 0, avgTradeLength := 0, totalTrades := 0, winningTrades := 0,
      totalTicks := tickCount, ticksPerSecond := ticksPerSecond }
  else
    let totalReturn : ℝ := (((b.equity - 100000) / 100000 : ℚ) : ℝ)
    let totalTrades := b.trades.length
    let winningTrades := (b.trades.filter (fun t => 0 < t.pnl)).length
    let winRate : ℝ := if 0 < totalTrades then (winningTrades : ℝ) / (totalTrades : ℝ) else 0
    let totalDuration : ℚ := (b.trades.map (fun t => (t.duration : ℚ))).sum
    let avgTradeLength : ℝ :=
      if 0 < totalTrades then (((totalDuration / (totalTrades : ℚ)) / 1000000 : ℚ) : ℝ) else 0
    let volatility : ℝ :=
      if 1 < b.equityCurve.length then
        if equityReturns b.equityCurve ≠ [] then
          Real.sqrt ((populationVarQ (equityReturns b.equityCurve) : ℚ) : ℝ) *
            Real.sqrt (252 * 24 * 60 * 60)
        else 0
      else 0
    let sharpeRatio : ℝ :=
      if (1e-10 : ℝ) < volatility then totalReturn / volatility * Real.sqrt 252 else 0
    { totalReturn := totalReturn, volatility := volatility, sharpeRatio := sharpeRatio,
      maxDrawdown := b.maxDrawdown, winRate := winRate, avgTradeLength := avgTradeLength,
      totalTrades := totalTrades, winningTrades := winningTrades, totalTicks := tickCount,
      ticksPerSecond := ticksPerSecond }

/-! ### LockFreeQueue (LockFreeQueue.hpp)

Heap pointers T* are modelled as Option values (none is nullptr), the
slot array as a list of such values, size_t as Nat with arithmetic
wrap-around made explicit where the source relies on it (mask_ for
capacity 0).  The sequential semantics of a compare-exchange is: it
succeeds exactly when the slot holds the expected value. -/

structure LockFreeQueue (α : Type) where
  capacity : Nat
  mask : Nat
  buffer : List (Option α)
  head : Nat
  tail : Nat
deriving DecidableEq, Repr

/-- mask_ member initializer: capacity - 1 in size_t arithmetic, which
wraps to 2^64 - 1 when capacity = 0. -/
def lfqMask (capacity : Nat) : Nat := (capacity + (2 ^ 64 - 1)) % 2 ^ 64

/-- LockFreeQueue constructor: throws std::invalid_argument exactly when
capacity & mask_ is nonzero, otherwise yields the all-empty ring. -/
def LockFreeQueue.construct (α : Type) (capacity : Nat) : Except Unit (LockFreeQueue α) :=
  if capacity &&& lfqMask capacity ≠ 0 then .error ()
  else .ok ⟨capacity, lfqMask capacity, List.replicate capacity none, 0, 0⟩

/-- LockFreeQueue::tryPush: refuses a null item outright; otherwise
checks the full condition and publishes through a compare-exchange of
the tail slot from nullptr. -/
def LockFreeQueue.tryPush {α : Type} (q : LockFreeQueue α) (item : Option α) :
    Bool × LockFreeQueue α :=
  match item with
  | none => (false, q)
  | some x =>
    let currentTail := q.tail
    let nextTail := (currentTail + 1) &&& q.mask
    if nextTail = q.head then (false, q)
    else
      match q.buffer.get? currentTail with
      | some none =>
        (true, { q with buffer := q.buffer.set currentTail (some x), tail := nextTail })
      | _ => (false, q)

/-- A natural number is a power of two. -/
def isPowerOfTwo (n : Nat) : Prop := ∃ k, n = 2 ^ k

/-! ## Theorems -/

/-! ### C10: tryPush of a null item -/

/-- C10: for every queue state, tryPush of a null item returns false and
leaves the queue unchanged: no slot is written and the tail index does
not advance. -/
theorem claim_C10 {α : Type} (q : LockFreeQueue α) :
    q.tryPush none = (false, q) ∧ (q.tryPush none).2.buffer = q.buffer ∧
      (q.tryPush none).2.tail = q.tail :=
  ⟨rfl, rfl, rfl⟩

/-! ### C9: reset round-trip of the tick source -/

lemma memchrNl_lt_length {l : List Char} {j : Nat} (h : memchrNl l = some j) :
    j < l.length := by
  induction l generalizing j with
  | nil => simp [memchrNl] at h
  | cons c cs ih =>
    unfold memchrNl at h
    by_cases hc : c = '\n'
    · rw [if_pos hc] at h
      obtain rfl : (0 : Nat) = j := Option.some.injEq _ _ ▸ h
      simp
    · rw [if_neg hc] at h
      obtain ⟨j', hj', rfl⟩ := Option.map_eq_some'.mp h
      have := ih hj'
      simp
      omega

lemma findNl_lt_length {data : List Char} {pos i : Nat} (h : findNl data pos = some i) :
    i < data.length := by
  unfold findNl at h
  obtain ⟨j, hj, rfl⟩ := Option.map_eq_some'.mp h
  have hlt := memchrNl_lt_length hj
  simp at hlt
  omega

lemma resetPos_eq_initPos (data : List Char) : resetPos data = initPos data := by
  unfold resetPos initPos
  by_cases hdata : data = []
  · simp [hdata]
  · simp only [hdata, ne_eq, not_false_eq_true, if_true]
    cases h : findNl data 0 with
    | none => rfl
    | some nl =>
      dsimp only
      rw [if_pos (findNl_lt_length h)]

/-- C9: reset leaves the mapped data untouched (no re-mapping),
repositions the cursor just past the header exactly as construction
does, and a full iteration after reset yields the same tick sequence as
the original iteration of a freshly constructed reader. -/
theorem claim_C9 (r : MarketDataReader) :
    r.reset.data = r.data ∧ r.reset.pos = initPos r.data ∧
      readAll r.reset = readAll (mkReader r.data) := by
  refine ⟨rfl, ?_, ?_⟩
  · simp [MarketDataReader.reset, resetPos_eq_initPos]
  · simp [MarketDataReader.reset, mkReader, readAll, resetPos_eq_initPos]

/-! ### C1: iteration over blank and malformed lines -/

/-- The input file written by the repository's own MalformedLines test. -/
def malformedFile : List Char :=
  ("timestamp,bid,ask,volume\n1000000,4500.25,4500.50,100\ninvalid_line\n" ++
   "2000000,4500.75,4501.00,200\nanother,bad,line\n3000000,4501.25,4501.50,150\n").toList

/-- The same records without the malformed lines. -/
def cleanFile : List Char :=
  ("timestamp,bid,ask,volume\n1000000,4500.25,4500.50,100\n" ++
   "2000000,4500.75,4501.00,200\n3000000,4501.25,4501.50,150\n").toList

/-- Valid records separated by a single LF-only blank line. -/
def blankLineFile : List Char :=
  ("timestamp,bid,ask,volume\n1000000,4500.25,4500.50,100\n\n" ++
   "2000000,4500.75,4501.00,200\n").toList

/-- C1: the code violates the claim.  A single valid line parses to the
expected record, and on the clean file iteration yields the three
records in order (witnessed by their timestamps); but on the repository's
own MalformedLines test input the parse of the line invalid_line raises
std::stoll's exception, which escapes next() and aborts the stream
(instead of yielding the three valid records), and an interior LF-only
blank line silently terminates iteration early (one record instead of
two valid ones). -/
theorem claim_C1 :
    parseLine ("1000000,4500.25,4500.50,100".toList) =
      .ok (some ⟨1000000, 18001/4, 9001/2, 100⟩) ∧
    (readAll (mkReader cleanFile)).map (fun l => l.map Tick.timestamp) =
      .ok [1000000, 2000000, 3000000] ∧
    readAll (mkReader malformedFile) = .error () ∧
    (readAll (mkReader blankLineFile)).map (fun l => l.map Tick.timestamp) =
      .ok [1000000] := by
  refine ⟨?_, by decide, by decide, by decide⟩
  simp +decide [parseLine, getlineSeq, stoll, stod, readSign, digitsToNat,
    readExponent, charIsSpace, List.dropWhile, List.takeWhile, List.foldl,
    bind, Except.bind, pure, Except.pure]
  norm_num

/-! ### C7: ring capacity power-of-two check -/

lemma two_pow_land_pred (k : Nat) : (2 ^ k) &&& (2 ^ k - 1) = 0 := by
  apply Nat.eq_of_testBit_eq
  intro i
  rw [Nat.testBit_land, Nat.testBit_two_pow, Nat.testBit_two_pow_sub_one, Nat.zero_testBit]
  by_cases hki : k = i
  · subst hki
    simp
  · simp [hki]

lemma land_double (m : Nat) : (2 * m) &&& (2 * m - 1) = 2 * (m &&& (m - 1)) := by
  rcases Nat.eq_zero_or_pos m with rfl | hm
  · simp
  apply Nat.eq_of_testBit_eq
  intro i
  cases i with
  | zero =>
    rw [Nat.testBit_land]
    simp [Nat.testBit_zero, Nat.mul_mod_right]
  | succ i =>
    have e1 : 2 * m - 1 = 2 * (m - 1) + 1 := by omega
    have e2 : (2 * (m - 1) + 1) / 2 = m - 1 := by omega
    have e3 : 2 * m / 2 = m := by omega
    have e4 : 2 * (m &&& (m - 1)) / 2 = m &&& (m - 1) := by omega
    rw [Nat.testBit_land, Nat.testBit_succ, Nat.testBit_succ, Nat.testBit_succ, e1, e2, e3,
      e4, Nat.testBit_land]

lemma land_odd (m : Nat) (hm : 0 < m) : (2 * m + 1) &&& (2 * m) ≠ 0 := by
  intro h
  have hm0 : m = 0 := by
    apply Nat.eq_of_testBit_eq
    intro i
    rw [Nat.zero_testBit]
    have hbit := congrArg (fun x => Nat.testBit x (i + 1)) h
    simp only [Nat.zero_testBit] at hbit
    rw [Nat.testBit_land, Nat.testBit_succ, Nat.testBit_succ] at hbit
    have e1 : (2 * m + 1) / 2 = m := by omega
    have e2 : 2 * m / 2 = m := by omega
    rw [e1, e2, Bool.and_self] at hbit
    exact hbit
  omega

lemma land_pred_eq_zero_iff : ∀ c : Nat, 0 < c → ((c &&& (c - 1)) = 0 ↔ isPowerOfTwo c) := by
  intro c
  induction c using Nat.strong_induction_on with
  | _ c ih =>
    intro hc
    rcases Nat.even_or_odd c with ⟨m, hm⟩ | ⟨m, hm⟩
    · have h2 : c = 2 * m := by omega
      have hmpos : 0 < m := by omega
      subst h2
      rw [land_double]
      have hiff := ih m (by omega) hmpos
      constructor
      · intro h0
        obtain ⟨k, hk⟩ := hiff.mp (by omega)
        exact ⟨k + 1, by rw [hk]; ring⟩
      · rintro ⟨k, hk⟩
        rcases Nat.eq_zero_or_pos k with rfl | hkpos
        · rw [pow_zero] at hk
          omega
        · have hk1 : k - 1 + 1 = k := by omega
          have hpow : 2 * 2 ^ (k - 1) = 2 ^ k := by
            rw [← pow_succ', hk1]
          have hmk : m = 2 ^ (k - 1) := by omega
          have := hiff.mpr ⟨k - 1, hmk⟩
          omega
    · subst hm
      rcases Nat.eq_zero_or_pos m with rfl | hmpos
      · constructor
        · intro _
          exact ⟨0, by norm_num⟩
        · intro _
          decide
      · have h1 : 2 * m + 1 - 1 = 2 * m := by omega
        rw [h1]
        constructor
        · intro h
          exact absurd h (land_odd m hmpos)
        · rintro ⟨k, hk⟩
          exfalso
          rcases Nat.eq_zero_or_pos k with rfl | hkpos
          · simp at hk
            omega
          · have hdvd : 2 ∣ 2 ^ k := dvd_pow_self 2 (by omega)
            obtain ⟨j, hj⟩ := hdvd
            omega

lemma lfqMask_eq (c : Nat) (h1 : 0 < c) (h2 : c < 2 ^ 64) : lfqMask c = c - 1 := by
  unfold lfqMask
  have he : c + (2 ^ 64 - 1) = (c - 1) + 2 ^ 64 := by omega
  rw [he, Nat.add_mod_right, Nat.mod_eq_of_lt (by omega)]

set_option maxRecDepth 4000 in
/-- C7 (amended): for every element type and capacity in size_t range,
construction fails with InvalidArgument exactly when the capacity is
positive and not a power of two; capacity 1000 fails and capacity 1024
succeeds.  (Capacity 0 is the exception the counterexample exhibits:
0 & (0-1) wraps to 0, so 0 is accepted although it is not a power of
two.) -/
theorem claim_C7 :
    (∀ (α : Type) (c : Nat), 0 < c → c < 2 ^ 64 →
      (LockFreeQueue.construct α c = .error () ↔ ¬ isPowerOfTwo c)) ∧
    LockFreeQueue.construct Unit 1000 = .error () ∧
    LockFreeQueue.construct Unit 1024 =
      .ok ⟨1024, 1023, List.replicate 1024 (none : Option Unit), 0, 0⟩ := by
  refine ⟨?_, by decide, by decide⟩
  intro α c h1 h2
  unfold LockFreeQueue.construct
  rw [lfqMask_eq c h1 h2]
  by_cases h : c &&& (c - 1) = 0
  · rw [if_neg (by simp [h])]
    constructor
    · intro hcontra
      exact absurd hcontra (by simp)
    · intro hnp
      exact absurd ((land_pred_eq_zero_iff c h1).mp h) hnp
  · rw [if_pos h]
    constructor
    · intro _
      exact fun hp => h ((land_pred_eq_zero_iff c h1).mpr hp)
    · intro _
      rfl

/-- C7 witness: the amended theorem applied at capacity 1000. -/
theorem claim_C7_witness :
    0 < 1000 ∧ (LockFreeQueue.construct Unit 1000 = .error () ↔ ¬ isPowerOfTwo 1000) :=
  ⟨by norm_num, claim_C7.1 Unit 1000 (by norm_num) (by norm_num)⟩

/-- C7 counterexample: capacity 0 is not a power of two, yet the
constructor accepts it (0 & mask = 0), so construction does not fail for
every non-power-of-two capacity as the claim states. -/
theorem claim_C7_counterexample :
    LockFreeQueue.construct Unit 0 = .ok ⟨0, lfqMask 0, [], 0, 0⟩ ∧ ¬ isPowerOfTwo 0 := by
  constructor
  · decide
  · rintro ⟨k, hk⟩
    have := Nat.pos_pow_of_pos k (show 0 < 2 by norm_num)
    omega

/-! ### C2: two-phase statistics recurrence -/

lemma ite_neg_eq_max (v : ℚ) : (if v < 0 then 0 else v) = max v 0 := by
  rcases lt_or_ge v 0 with h | h
  · rw [if_pos h, max_eq_right h.le]
  · rw [if_neg (not_lt.mpr h), max_eq_left h]

lemma sq_sum_expand (xs : List ℚ) (c : ℚ) :
    ((xs.map fun x => (x - c) ^ 2).sum) =
      ((xs.map fun x => x ^ 2).sum) - 2 * c * xs.sum + (xs.length : ℚ) * c ^ 2 := by
  induction xs with
  | nil => simp
  | cons a l ih =>
    simp only [List.map_cons, List.sum_cons, List.length_cons, ih]
    push_cast
    ring

lemma update_zero (s : RollingStatistics) (x : ℚ) (h1 : s.count < s.windowSize)
    (h2 : s.count = 0) :
    s.update x = { s with count := s.count + 1, mean := x, variance := 0, m2 := 0 } := by
  simp only [RollingStatistics.update]
  rw [if_pos h1, if_pos h2]

lemma update_fill (s : RollingStatistics) (x : ℚ) (h1 : s.count < s.windowSize)
    (h2 : s.count ≠ 0) :
    s.update x =
      { s with count := s.count + 1,
               mean := s.mean + (x - s.mean) / ((s.count : ℚ) + 1),
               m2 := s.m2 + (x - s.mean) *
                 (x - (s.mean + (x - s.mean) / ((s.count : ℚ) + 1))),
               variance := (s.m2 + (x - s.mean) *
                 (x - (s.mean + (x - s.mean) / ((s.count : ℚ) + 1)))) /
                   ((s.count : ℚ) + 1) } := by
  simp only [RollingStatistics.update]
  rw [if_pos h1, if_neg h2]

lemma update_ewma (s : RollingStatistics) (x : ℚ) (h : ¬ s.count < s.windowSize) :
    s.update x =
      { s with count := s.count + 1,
               mean := alpha s.windowSize * x + (1 - alpha s.windowSize) * s.mean,
               variance :=
                 if (1 - alpha s.windowSize) *
                     (s.variance + alpha s.windowSize * (x - s.mean) * (x - s.mean)) < 0
                 then 0
                 else (1 - alpha s.windowSize) *
                   (s.variance + alpha s.windowSize * (x - s.mean) * (x - s.mean)) } := by
  simp only [RollingStatistics.update, RollingStatistics.updateEWMA]
  rw [if_neg h]

lemma fillStats_spec (w : Nat) (xs : List ℚ) (hne : xs ≠ []) (hlen : xs.length ≤ w) :
    (xs.foldl RollingStatistics.update (RollingStatistics.init w)).windowSize = w ∧
    (xs.foldl RollingStatistics.update (RollingStatistics.init w)).count = xs.length ∧
    (xs.foldl RollingStatistics.update (RollingStatistics.init w)).mean =
      xs.sum / (xs.length : ℚ) ∧
    (xs.foldl RollingStatistics.update (RollingStatistics.init w)).m2 =
      ((xs.map fun x => x ^ 2).sum) - xs.sum ^ 2 / (xs.length : ℚ) ∧
    (xs.foldl RollingStatistics.update (RollingStatistics.init w)).variance =
      (xs.foldl RollingStatistics.update (RollingStatistics.init w)).m2 / (xs.length : ℚ) := by
  induction xs using List.reverseRecOn with
  | nil => exact absurd rfl hne
  | append_singleton ys x ih =>
    rw [List.foldl_append, List.foldl_cons, List.foldl_nil]
    rcases eq_or_ne ys [] with rfl | hys
    · have hw : 0 < w := by
        simpa using hlen
      simp only [List.nil_append, List.foldl_nil, List.length_cons, List.length_nil,
        List.sum_cons, List.sum_nil, List.map_cons, List.map_nil]
      rw [update_zero _ x (by simpa [RollingStatistics.init] using hw) rfl]
      refine ⟨rfl, rfl, ?_, ?_, ?_⟩ <;> push_cast <;> norm_num
    · have hlen' : ys.length ≤ w := by
        rw [List.length_append, List.length_cons, List.length_nil] at hlen
        omega
      obtain ⟨hw, hcnt, hmean, hm2, hvar⟩ := ih hys hlen'
      set s := ys.foldl RollingStatistics.update (RollingStatistics.init w) with hs
      have hltw : s.count < s.windowSize := by
        rw [hcnt, hw]
        rw [List.length_append, List.length_cons, List.length_nil] at hlen
        omega
      have hn : 0 < ys.length := List.length_pos.mpr hys
      have hnq : ((ys.length : ℚ)) ≠ 0 := by
        exact_mod_cast Nat.pos_iff_ne_zero.mp hn
      rw [update_fill s x hltw (by rw [hcnt]; omega)]
      refine ⟨hw, ?_, ?_, ?_, ?_⟩
      · simp only [List.length_append, List.length_cons, List.length_nil]
        rw [hcnt]
      · simp only [List.sum_append, List.sum_cons, List.sum_nil, List.length_append,
          List.length_cons, List.length_nil]
        rw [hmean, hcnt]
        push_cast
        field_simp
        ring
      · simp only [List.map_append, List.map_cons, List.map_nil, List.sum_append,
          List.sum_cons, List.sum_nil, List.length_append, List.length_cons, List.length_nil]
        rw [hm2, hmean, hcnt]
        push_cast
        field_simp
        ring
      · simp only [List.length_append, List.length_cons, List.length_nil]
        rw [hcnt]
        push_cast
        ring

/-- C2: during the fill phase (at most W samples) the accumulators hold
the exact running mean, the Welford second moment equals the sum of
squared deviations from the current mean, and the variance is the exact
population variance m2 / count; once count has reached W, one update
applies the exponentially-weighted recurrence with alpha = 2/(W+1): the
mean becomes alpha x + (1-alpha) mean_old with mean_old captured before
the mutation, and the variance becomes the clamped
max((1-alpha)(variance + alpha (x - mean_old)^2), 0). -/
theorem claim_C2 :
    (∀ (w : Nat) (xs : List ℚ), xs ≠ [] → xs.length ≤ w →
      (xs.foldl RollingStatistics.update (RollingStatistics.init w)).count = xs.length ∧
      (xs.foldl RollingStatistics.update (RollingStatistics.init w)).mean =
        xs.sum / (xs.length : ℚ) ∧
      (xs.foldl RollingStatistics.update (RollingStatistics.init w)).m2 =
        ((xs.map fun x =>
          (x - (xs.foldl RollingStatistics.update (RollingStatistics.init w)).mean) ^ 2).sum) ∧
      (xs.foldl RollingStatistics.update (RollingStatistics.init w)).variance =
        (xs.foldl RollingStatistics.update (RollingStatistics.init w)).m2 /
          (xs.length : ℚ)) ∧
    (∀ (s : RollingStatistics) (x : ℚ), s.windowSize ≤ s.count →
      s.update x =
        { s with count := s.count + 1,
                 mean := alpha s.windowSize * x + (1 - alpha s.windowSize) * s.mean,
                 variance :=
                   max ((1 - alpha s.windowSize) *
                     (s.variance + alpha s.windowSize * (x - s.mean) ^ 2)) 0 }) := by
  constructor
  · intro w xs hne hlen
    obtain ⟨hw, hcnt, hmean, hm2, hvar⟩ := fillStats_spec w xs hne hlen
    have hn : 0 < xs.length := List.length_pos.mpr hne
    have hnq : ((xs.length : ℚ)) ≠ 0 := by
      exact_mod_cast Nat.pos_iff_ne_zero.mp hn
    refine ⟨hcnt, hmean, ?_, hvar⟩
    rw [sq_sum_expand, hm2, hmean]
    field_simp
    ring
  · intro s x hcount
    obtain ⟨w, cnt, mean, var, m2⟩ := s
    rw [update_ewma _ x (by omega)]
    simp only [RollingStatistics.mk.injEq, true_and, and_true, eq_self_iff_true]
    rw [ite_neg_eq_max]
    congr 1
    ring

/-- C2 witness: the fill-phase part at W = 2 with samples [1, 3] and the
EWMA part at a ready state. -/
theorem claim_C2_witness :
    ((([1, 3] : List ℚ).foldl RollingStatistics.update (RollingStatistics.init 2)).count =
        ([1, 3] : List ℚ).length ∧
      (([1, 3] : List ℚ).foldl RollingStatistics.update (RollingStatistics.init 2)).mean =
        ([1, 3] : List ℚ).sum / (([1, 3] : List ℚ).length : ℚ) ∧
      (([1, 3] : List ℚ).foldl RollingStatistics.update (RollingStatistics.init 2)).m2 =
        ((([1, 3] : List ℚ).map fun x =>
          (x - (([1, 3] : List ℚ).foldl RollingStatistics.update
            (RollingStatistics.init 2)).mean) ^ 2).sum) ∧
      (([1, 3] : List ℚ).foldl RollingStatistics.update (RollingStatistics.init 2)).variance =
        (([1, 3] : List ℚ).foldl RollingStatistics.update (RollingStatistics.init 2)).m2 /
          (([1, 3] : List ℚ).length : ℚ)) ∧
    RollingStatistics.update ⟨2, 2, 5, 7, 11⟩ 4 =
      { windowSize := 2, count := 3,
        mean := alpha 2 * 4 + (1 - alpha 2) * 5,
        variance := max ((1 - alpha 2) * (7 + alpha 2 * (4 - 5) ^ 2)) 0, m2 := 11 } :=
  ⟨claim_C2.1 2 [1, 3] (by decide) (by decide),
   claim_C2.2 ⟨2, 2, 5, 7, 11⟩ 4 (by decide)⟩

/-! ### C3: signal state machine -/

lemma zscore_of_zero_variance (s : RollingStatistics) (h : s.variance = 0) (x : ℚ) :
    s.zscore x = 0 := by
  unfold RollingStatistics.zscore RollingStatistics.stddev
  rw [h, Rat.cast_zero, Real.sqrt_zero, if_neg (by norm_num)]

lemma nextSignalSpec_flat (θ z : ℝ) :
    nextSignalSpec Signal.FLAT θ z =
      if z < -θ then Signal.LONG else if θ < z then Signal.SHORT else Signal.FLAT := rfl

lemma nextSignalSpec_long (θ z : ℝ) :
    nextSignalSpec Signal.LONG θ z = if 0 ≤ z then Signal.FLAT else Signal.LONG := rfl

lemma nextSignalSpec_short (θ z : ℝ) :
    nextSignalSpec Signal.SHORT θ z = if z ≤ 0 then Signal.FLAT else Signal.SHORT := rfl

lemma generate_ready (g : SignalGenerator) (price : ℚ) (stats : RollingStatistics)
    (h : stats.isReady) :
    g.generate price stats =
      (nextSignalSpec g.currentSignal g.threshold (stats.zscore price),
       { g with currentSignal := nextSignalSpec g.currentSignal g.threshold (stats.zscore price),
                lastZScore := stats.zscore price }) := by
  unfold SignalGenerator.generate nextSignalSpec
  rw [if_neg (by simp [h])]

/-- C3: generate returns FLAT without state change when the statistics
are not ready; otherwise the stored state steps exactly per the claim's
transition table on z = zscore(price) (entry for FLAT with strict
threshold comparisons, exit for LONG on z at least 0 and for SHORT on z
at most 0, no change otherwise), and a single invocation never moves
directly between LONG and SHORT. -/
theorem claim_C3 (g : SignalGenerator) (price : ℚ) (stats : RollingStatistics) :
    (¬ stats.isReady → g.generate price stats = (Signal.FLAT, g)) ∧
    (stats.isReady →
      (g.generate price stats).2.currentSignal =
        nextSignalSpec g.currentSignal g.threshold (stats.zscore price) ∧
      (g.generate price stats).1 = (g.generate price stats).2.currentSignal ∧
      (0 < g.threshold →
        (g.currentSignal = Signal.FLAT →
          (((g.generate price stats).2.currentSignal = Signal.LONG) ↔
            stats.zscore price < -g.threshold) ∧
          (((g.generate price stats).2.currentSignal = Signal.SHORT) ↔
            g.threshold < stats.zscore price)) ∧
        (g.currentSignal = Signal.LONG →
          (((g.generate price stats).2.currentSignal = Signal.FLAT) ↔
            0 ≤ stats.zscore price)) ∧
        (g.currentSignal = Signal.SHORT →
          (((g.generate price stats).2.currentSignal = Signal.FLAT) ↔
            stats.zscore price ≤ 0)))) ∧
    ¬ (g.currentSignal = Signal.LONG ∧
        (g.generate price stats).2.currentSignal = Signal.SHORT) ∧
    ¬ (g.currentSignal = Signal.SHORT ∧
        (g.generate price stats).2.currentSignal = Signal.LONG) := by
  by_cases hready : stats.isReady
  · rw [generate_ready g price stats hready]
    set z := stats.zscore price with hz
    set th := g.threshold with hth
    refine ⟨fun h => absurd hready h, fun _ => ⟨rfl, rfl, ?_⟩, ?_, ?_⟩
    · intro hpos
      refine ⟨?_, ?_, ?_⟩
      · intro hcur
        rw [hcur, nextSignalSpec_flat]
        split_ifs with h1 h2
        · exact ⟨⟨fun _ => h1, fun _ => rfl⟩,
            ⟨fun hco => by simp at hco, fun hco => absurd hco (not_lt.mpr (by linarith))⟩⟩
        · exact ⟨⟨fun hco => by simp at hco, fun hco => absurd hco h1⟩,
            ⟨fun _ => h2, fun _ => rfl⟩⟩
        · exact ⟨⟨fun hco => by simp at hco, fun hco => absurd hco h1⟩,
            ⟨fun hco => by simp at hco, fun hco => absurd hco h2⟩⟩
      · intro hcur
        rw [hcur, nextSignalSpec_long]
        constructor
        · intro h
          by_contra hc
          rw [if_neg hc] at h
          simp at h
        · intro h
          rw [if_pos h]
      · intro hcur
        rw [hcur, nextSignalSpec_short]
        constructor
        · intro h
          by_contra hc
          rw [if_neg hc] at h
          simp at h
        · intro h
          rw [if_pos h]
    · rintro ⟨hcur, hnew⟩
      rw [hcur, nextSignalSpec_long] at hnew
      split_ifs at hnew
    · rintro ⟨hcur, hnew⟩
      rw [hcur, nextSignalSpec_short] at hnew
      split_ifs at hnew
  · have hgen : g.generate price stats = (Signal.FLAT, g) := by
      unfold SignalGenerator.generate
      rw [if_pos hready]
    rw [hgen]
    refine ⟨fun _ => rfl, fun h => absurd h hready, ?_, ?_⟩
    · rintro ⟨hcur, hnew⟩
      simp only at hnew
      rw [hcur] at hnew
      simp at hnew
    · rintro ⟨hcur, hnew⟩
      simp only at hnew
      rw [hcur] at hnew
      simp at hnew

/-- A ready statistics state with zero variance, for the C3 witness. -/
def readyStats : RollingStatistics := ⟨1, 1, 0, 0, 0⟩

/-- C3 witness: at a ready zero-variance state the z-score is 0, and from
FLAT with threshold 1 the generator stays FLAT. -/
theorem claim_C3_witness :
    ((SignalGenerator.mk 1 Signal.FLAT 0).generate 5 readyStats).2.currentSignal =
      Signal.FLAT ∧
    ((SignalGenerator.mk 1 Signal.FLAT 0).generate 5 readyStats).1 = Signal.FLAT := by
  have hready : readyStats.isReady := by decide
  obtain ⟨-, h2, -, -⟩ := claim_C3 (SignalGenerator.mk 1 Signal.FLAT 0) 5 readyStats
  obtain ⟨hspec, hres, -⟩ := h2 hready
  have hz : readyStats.zscore 5 = 0 := zscore_of_zero_variance _ rfl 5
  have hflat : ((SignalGenerator.mk 1 Signal.FLAT 0).generate 5 readyStats).2.currentSignal =
      Signal.FLAT := by
    rw [hspec, hz, nextSignalSpec_flat]
    rw [if_neg (by norm_num), if_neg (by norm_num)]
  exact ⟨hflat, by rw [hres, hflat]⟩

/-! ### C8: Sharpe ratio formula -/

/-- C8: the reported Sharpe ratio equals totalReturn / volatility times
the square root of 252 when the volatility exceeds 1e-10, and 0
otherwise (in particular in the empty-trades branch, whose volatility is
0); the risk-free rate never appears. -/
theorem claim_C8 (b : Backtester) (startTime endTime : Int) (tickCount : Nat) :
    (b.calculateMetrics startTime endTime tickCount).sharpeRatio =
      if (1e-10 : ℝ) < (b.calculateMetrics startTime endTime tickCount).volatility then
        (b.calculateMetrics startTime endTime tickCount).totalReturn /
          (b.calculateMetrics startTime endTime tickCount).volatility * Real.sqrt 252
      else 0 := by
  unfold Backtester.calculateMetrics
  by_cases h : b.trades = []
  · simp only [h, if_true, if_pos rfl]
    rw [if_neg (by norm_num)]
  · simp only [h, if_false, ite_false]

/-! ### Backtester step lemmas (shared by C4, C5, C6) -/

lemma closePosition_stamps (b : Backtester) (p : ℚ) (t : Int) :
    (b.closePosition p t).equityTimestamps = b.equityTimestamps := by
  unfold Backtester.closePosition
  split_ifs <;> rfl

lemma closePosition_curve (b : Backtester) (p : ℚ) (t : Int) :
    (b.closePosition p t).equityCurve = b.equityCurve := by
  unfold Backtester.closePosition
  split_ifs <;> rfl

lemma closePosition_peak (b : Backtester) (p : ℚ) (t : Int) :
    (b.closePosition p t).peakEquity = b.peakEquity := by
  unfold Backtester.closePosition
  split_ifs <;> rfl

lemma closePosition_entryTime (b : Backtester) (p : ℚ) (t : Int) :
    (b.closePosition p t).entryTime = b.entryTime := by
  unfold Backtester.closePosition
  split_ifs <;> rfl

lemma closePosition_pos (b : Backtester) (p : ℚ) (t : Int) :
    (b.closePosition p t).currentPosition = Signal.FLAT := by
  unfold Backtester.closePosition
  split_ifs with h
  · exact h
  all_goals rfl

lemma closePosition_trades_mem (b : Backtester) (p : ℚ) (t : Int) (tr : Trade)
    (h : tr ∈ (b.closePosition p t).trades) :
    tr ∈ b.trades ∨
      (b.currentPosition ≠ Signal.FLAT ∧ tr.entryTime = b.entryTime ∧ tr.exitTime = t) := by
  unfold Backtester.closePosition at h
  split_ifs at h with hfl
  · exact Or.inl h
  all_goals
    simp only [List.mem_append, List.mem_singleton] at h
  all_goals
    rcases h with h | h
  all_goals
    first
      | exact Or.inl h
      | exact Or.inr ⟨hfl, by rw [h], by rw [h]⟩

lemma updatePosition_same (b : Backtester) (p : ℚ) (t : Int) (sig : Signal)
    (h : sig = b.currentPosition) : b.updatePosition p t sig = b := by
  unfold Backtester.updatePosition
  rw [if_pos h]

lemma updatePosition_pos (b : Backtester) (p : ℚ) (t : Int) (sig : Signal) :
    (b.updatePosition p t sig).currentPosition = sig := by
  by_cases h : sig = b.currentPosition
  · rw [updatePosition_same b p t sig h, h]
  · simp only [Backtester.updatePosition, if_neg h]
    simp only [apply_ite Backtester.currentPosition, closePosition_pos, ite_self]
    split_ifs with h1 h2 <;> simp_all

lemma updatePosition_entryTime (b : Backtester) (p : ℚ) (t : Int) (sig : Signal)
    (h : ¬ sig = b.currentPosition) :
    (b.updatePosition p t sig).entryTime = if sig = Signal.FLAT then b.entryTime else t := by
  simp only [Backtester.updatePosition, if_neg h]
  simp only [apply_ite Backtester.entryTime, closePosition_entryTime, ite_self]
  split_ifs with h1 h2 <;> simp_all

lemma updatePosition_trades_mem (b : Backtester) (p : ℚ) (t : Int) (sig : Signal) (tr : Trade)
    (h : tr ∈ (b.updatePosition p t sig).trades) :
    tr ∈ b.trades ∨
      (b.currentPosition ≠ Signal.FLAT ∧ tr.entryTime = b.entryTime ∧ tr.exitTime = t) := by
  by_cases hs : sig = b.currentPosition
  · rw [updatePosition_same b p t sig hs] at h
    exact Or.inl h
  · simp only [Backtester.updatePosition, if_neg hs] at h
    simp only [apply_ite Backtester.trades, ite_self] at h
    split_ifs at h with h1
    · exact closePosition_trades_mem b p t tr h
    · exact Or.inl h

lemma updatePosition_peak_ge (b : Backtester) (p : ℚ) (t : Int) (sig : Signal)
    (hb : b.equity ≤ b.peakEquity) :
    (b.updatePosition p t sig).equity ≤ (b.updatePosition p t sig).peakEquity := by
  by_cases hs : sig = b.currentPosition
  · rw [updatePosition_same b p t sig hs]
    exact hb
  · simp only [Backtester.updatePosition, if_neg hs]
    simp only [apply_ite Backtester.equity, apply_ite Backtester.peakEquity, ite_self]
    split_ifs <;> simp_all

lemma updatePosition_stamps (b : Backtester) (p : ℚ) (t : Int) (sig : Signal) :
    (b.updatePosition p t sig).equityTimestamps =
      if sig = b.currentPosition then b.equityTimestamps
      else b.equityTimestamps ++ [t] := by
  by_cases hs : sig = b.currentPosition
  · rw [updatePosition_same b p t sig hs, if_pos hs]
  · rw [if_neg hs]
    simp only [Backtester.updatePosition, if_neg hs]
    simp only [apply_ite Backtester.equityTimestamps, closePosition_stamps, ite_self]

lemma updatePosition_curve (b : Backtester) (p : ℚ) (t : Int) (sig : Signal) :
    (b.updatePosition p t sig).equityCurve =
      if sig = b.currentPosition then b.equityCurve
      else b.equityCurve ++ [(if sig ≠ Signal.FLAT then
        ((if b.currentPosition ≠ Signal.FLAT then b.closePosition p t else b).equity -
          (if b.currentPosition ≠ Signal.FLAT then b.closePosition p t else b).commission)
        else (if b.currentPosition ≠ Signal.FLAT then b.closePosition p t else b).equity)] := by
  by_cases hs : sig = b.currentPosition
  · rw [updatePosition_same b p t sig hs, if_pos hs]
  · rw [if_neg hs]
    simp only [Backtester.updatePosition, if_neg hs]
    simp only [apply_ite Backtester.equityCurve, apply_ite Backtester.equity,
      apply_ite Backtester.commission, closePosition_curve, ite_self]

lemma updatePosition_lens (b : Backtester) (p : ℚ) (t : Int) (sig : Signal)
    (h : b.equityCurve.length = b.equityTimestamps.length) :
    (b.updatePosition p t sig).equityCurve.length =
      (b.updatePosition p t sig).equityTimestamps.length := by
  rw [updatePosition_stamps, updatePosition_curve]
  split_ifs <;> simp [h]

lemma updatePosition_open_flat (b : Backtester) (p : ℚ) (t : Int) (sig : Signal)
    (hflat : b.currentPosition = Signal.FLAT) (hsig : ¬ sig = Signal.FLAT)
    (hpeak : ¬ b.peakEquity < b.equity - b.commission)
    (hdd : b.maxDrawdown < (b.peakEquity - (b.equity - b.commission)) / b.peakEquity) :
    b.updatePosition p t sig =
      { b with currentPosition := sig,
               entryPrice := b.getFillPrice p sig,
               entryTime := t,
               equity := b.equity - b.commission,
               equityCurve := b.equityCurve ++ [b.equity - b.commission],
               equityTimestamps := b.equityTimestamps ++ [t],
               maxDrawdown := (b.peakEquity - (b.equity - b.commission)) / b.peakEquity } := by
  unfold Backtester.updatePosition
  rw [if_neg (show ¬ sig = b.currentPosition from by rw [hflat]; exact hsig)]
  rw [if_neg (show ¬ b.currentPosition ≠ Signal.FLAT from fun hc => hc hflat)]
  dsimp only
  rw [if_pos hsig]
  dsimp only
  rw [if_neg hpeak, if_pos hdd]

lemma closePosition_long (b : Backtester) (p : ℚ) (t : Int)
    (h : b.currentPosition = Signal.LONG) :
    b.closePosition p t =
      { b with equity := b.equity + ((p - b.slippage - b.entryPrice) * 50 - b.commission),
               trades := b.trades ++ [⟨b.entryTime, t, b.entryPrice, p - b.slippage,
                 b.currentPosition, (p - b.slippage - b.entryPrice) * 50 - b.commission,
                 t - b.entryTime⟩],
               currentPosition := Signal.FLAT } := by
  unfold Backtester.closePosition Backtester.getFillPrice
  rw [if_neg (show ¬ b.currentPosition = Signal.FLAT from by
    rw [h]; exact fun hc => Signal.noConfusion hc)]
  rw [if_pos h]
  dsimp only
  rw [if_neg (show ¬ Signal.SHORT = Signal.LONG from fun hc => Signal.noConfusion hc)]
  rw [if_pos (rfl : Signal.SHORT = Signal.SHORT)]
  rw [if_pos h]

lemma runTicks_nil (st : PipelineState) : runTicks st [] = st := rfl

lemma runTicks_cons (st : PipelineState) (t : Tick) (rest : List Tick) :
    runTicks st (t :: rest) = runTicks (stepTick st t) rest := rfl

lemma runTicks_append (st : PipelineState) (xs ys : List Tick) :
    runTicks st (xs ++ ys) = runTicks (runTicks st xs) ys := by
  unfold runTicks
  exact List.foldl_append _ _ _ _

lemma stepTick_bt (st : PipelineState) (t : Tick) :
    (stepTick st t).bt = st.bt.updatePosition t.mid t.timestamp
      (st.gen.generate t.mid (st.stats.update t.mid)).1 := rfl

lemma runTicks_peak (ticks : List Tick) : ∀ st : PipelineState,
    st.bt.equity ≤ st.bt.peakEquity →
    (runTicks st ticks).bt.equity ≤ (runTicks st ticks).bt.peakEquity := by
  induction ticks with
  | nil => exact fun st h => h
  | cons t rest ih =>
    intro st h
    rw [runTicks_cons]
    refine ih _ ?_
    rw [stepTick_bt]
    exact updatePosition_peak_ge _ _ _ _ h

/-- C4 (amended): the invariant peak_equity at least equity holds after
every per-tick state update of the run loop (for every prefix of the
stream).  The end-of-stream force-close is excluded: it adds the final
PnL to equity without refreshing peak_equity, and the counterexample
shows the invariant can fail there. -/
theorem claim_C4 (commission slippage : ℚ) (θ : ℝ) (ticks : List Tick) (n : Nat) :
    (runTicks (initState commission slippage θ) (ticks.take n)).bt.equity ≤
      (runTicks (initState commission slippage θ) (ticks.take n)).bt.peakEquity :=
  runTicks_peak _ _ (le_refl _)

/-! ### C6: equity points and transitions -/

lemma transitionStamps_nil (st : PipelineState) : transitionStamps st [] = [] := rfl

lemma transitionStamps_cons (st : PipelineState) (t : Tick) (rest : List Tick) :
    transitionStamps st (t :: rest) =
      (if (st.gen.generate t.mid (st.stats.update t.mid)).1 ≠ st.bt.currentPosition
       then [t.timestamp] else []) ++ transitionStamps (stepTick st t) rest := rfl

lemma runTicks_stamps (ticks : List Tick) : ∀ st : PipelineState,
    (runTicks st ticks).bt.equityTimestamps =
      st.bt.equityTimestamps ++ transitionStamps st ticks := by
  induction ticks with
  | nil =>
    intro st
    rw [runTicks_nil, transitionStamps_nil, List.append_nil]
  | cons t rest ih =>
    intro st
    rw [runTicks_cons, ih, transitionStamps_cons, stepTick_bt, updatePosition_stamps]
    by_cases hsig : (st.gen.generate t.mid (st.stats.update t.mid)).1 = st.bt.currentPosition
    · rw [if_pos hsig, if_neg (by simpa using hsig)]
      simp
    · rw [if_neg hsig, if_pos hsig]
      simp

lemma runTicks_lens (ticks : List Tick) : ∀ st : PipelineState,
    st.bt.equityCurve.length = st.bt.equityTimestamps.length →
    (runTicks st ticks).bt.equityCurve.length =
      (runTicks st ticks).bt.equityTimestamps.length := by
  induction ticks with
  | nil => exact fun st h => h
  | cons t rest ih =>
    intro st h
    rw [runTicks_cons]
    refine ih _ ?_
    rw [stepTick_bt]
    exact updatePosition_lens _ _ _ _ h

/-- C6 (amended): the equity-timestamp log of a run is the initial point
stamped 0 followed by exactly one point per position transition performed
inside updatePosition, stamped with the transition tick's timestamp; the
equity curve has one value per timestamp; the end-of-stream force-close
appends no equity point (the counterexample shows the claimed
one-point-per-transition correspondence fails because of the initial
point and the force-close). -/
theorem claim_C6 (commission slippage : ℚ) (θ : ℝ) (ticks : List Tick) :
    (runBacktest commission slippage θ ticks).bt.equityTimestamps =
      0 :: transitionStamps (initState commission slippage θ) ticks ∧
    (runBacktest commission slippage θ ticks).bt.equityCurve.length =
      (runBacktest commission slippage θ ticks).bt.equityTimestamps.length := by
  have hstamps := runTicks_stamps ticks (initState commission slippage θ)
  have hlens := runTicks_lens ticks (initState commission slippage θ)
    (by rfl)
  have hinit : (initState commission slippage θ).bt.equityTimestamps = [0] := rfl
  unfold runBacktest
  cases hlast : ticks.getLast? with
  | none =>
    dsimp only
    rw [hstamps, hinit] at *
    exact ⟨rfl, hlens⟩
  | some last =>
    dsimp only
    split_ifs with hpos
    · constructor
      · simp only [closePosition_stamps]
        rw [hstamps, hinit]
        rfl
      · simp only [closePosition_stamps, closePosition_curve]
        exact hlens
    · rw [hstamps, hinit] at *
      exact ⟨rfl, hlens⟩

/-! ### C5: trade time ordering -/

lemma runTicks_trades_inv (ticks : List Tick) : ∀ st : PipelineState,
    ticks.Pairwise (fun a b => a.timestamp ≤ b.timestamp) →
    (∀ tr ∈ st.bt.trades, tr.entryTime ≤ tr.exitTime) →
    (st.bt.currentPosition ≠ Signal.FLAT → ∀ u ∈ ticks, st.bt.entryTime ≤ u.timestamp) →
    (∀ tr ∈ (runTicks st ticks).bt.trades, tr.entryTime ≤ tr.exitTime) ∧
    ((runTicks st ticks).bt.currentPosition ≠ Signal.FLAT →
      ∀ x, ticks.getLast? = some x → (runTicks st ticks).bt.entryTime ≤ x.timestamp) := by
  induction ticks with
  | nil =>
    intro st _ htr _
    exact ⟨htr, fun _ x hx => by simp at hx⟩
  | cons u rest ih =>
    intro st hsort htr hopen
    have hle : ∀ v ∈ rest, u.timestamp ≤ v.timestamp := (List.pairwise_cons.mp hsort).1
    have hsort' : rest.Pairwise (fun a b => a.timestamp ≤ b.timestamp) :=
      (List.pairwise_cons.mp hsort).2
    set sig := (st.gen.generate u.mid (st.stats.update u.mid)).1 with hsig
    have hbt1 : (stepTick st u).bt = st.bt.updatePosition u.mid u.timestamp sig := rfl
    have htr1 : ∀ tr ∈ (stepTick st u).bt.trades, tr.entryTime ≤ tr.exitTime := by
      intro tr hmem
      rw [hbt1] at hmem
      rcases updatePosition_trades_mem _ _ _ _ _ hmem with hh | ⟨hne, he, hx⟩
      · exact htr tr hh
      · rw [he, hx]
        exact hopen hne u (List.mem_cons_self u rest)
    have hentry1 : (stepTick st u).bt.currentPosition ≠ Signal.FLAT →
        (stepTick st u).bt.entryTime = st.bt.entryTime ∨
          (stepTick st u).bt.entryTime = u.timestamp := by
      intro _
      rw [hbt1]
      by_cases hsame : sig = st.bt.currentPosition
      · rw [updatePosition_same _ _ _ _ hsame]
        exact Or.inl rfl
      · rw [updatePosition_entryTime _ _ _ _ hsame]
        split_ifs
        · exact Or.inl rfl
        · exact Or.inr rfl
    have hpos1 : (stepTick st u).bt.currentPosition ≠ Signal.FLAT →
        st.bt.currentPosition ≠ Signal.FLAT ∨ sig ≠ Signal.FLAT := by
      intro hpos
      rw [hbt1] at hpos
      by_cases hsame : sig = st.bt.currentPosition
      · rw [updatePosition_same _ _ _ _ hsame] at hpos
        exact Or.inl hpos
      · rw [updatePosition_pos] at hpos
        exact Or.inr hpos
    have hopen1 : (stepTick st u).bt.currentPosition ≠ Signal.FLAT →
        ∀ v ∈ rest, (stepTick st u).bt.entryTime ≤ v.timestamp := by
      intro hpos v hv
      rw [hbt1] at hpos ⊢
      by_cases hsame : sig = st.bt.currentPosition
      · rw [updatePosition_same _ _ _ _ hsame] at hpos ⊢
        exact hopen hpos v (List.mem_cons_of_mem u hv)
      · rw [updatePosition_pos] at hpos
        rw [updatePosition_entryTime _ _ _ _ hsame, if_neg hpos]
        exact hle v hv
    obtain ⟨ih1, ih2⟩ := ih (stepTick st u) hsort' htr1 hopen1
    rw [runTicks_cons]
    refine ⟨ih1, ?_⟩
    intro hpos x hx
    rcases eq_or_ne rest [] with rfl | hrest
    · have hx2 : u = x := by simpa using hx
      rw [runTicks_nil] at hpos ⊢
      rw [hbt1] at hpos ⊢
      rw [← hx2]
      by_cases hsame : sig = st.bt.currentPosition
      · rw [updatePosition_same _ _ _ _ hsame] at hpos ⊢
        exact hopen hpos u (List.mem_cons_self u [])
      · rw [updatePosition_pos] at hpos
        rw [updatePosition_entryTime _ _ _ _ hsame, if_neg hpos]
    · obtain ⟨v, rest', rfl⟩ := List.exists_cons_of_ne_nil hrest
      rw [List.getLast?_cons_cons] at hx
      exact ih2 hpos x hx

/-- C5 (amended): over any stream with non-decreasing timestamps, every
trade in the log, the end-of-stream force-close trade included, satisfies
entry_time at most exit_time.  Strictness fails: a position opened at the
final tick is force-closed at the same timestamp (the counterexample),
so entry_time < exit_time does not hold for every trade. -/
theorem claim_C5 (commission slippage : ℚ) (θ : ℝ) (ticks : List Tick)
    (hsort : ticks.Pairwise (fun a b => a.timestamp ≤ b.timestamp)) :
    ∀ tr ∈ (runBacktest commission slippage θ ticks).bt.trades,
      tr.entryTime ≤ tr.exitTime := by
  obtain ⟨h1, h2⟩ := runTicks_trades_inv ticks (initState commission slippage θ) hsort
    (by intro tr htr; simp [initState, Backtester.init] at htr)
    (by intro hco; simp [initState, Backtester.init] at hco)
  unfold runBacktest
  cases hlast : ticks.getLast? with
  | none =>
    dsimp only
    exact h1
  | some last =>
    dsimp only
    split_ifs with hpos
    · intro tr hmem
      simp only at hmem
      rcases closePosition_trades_mem _ _ _ _ hmem with hh | ⟨-, he, hx⟩
      · exact h1 tr hh
      · rw [he, hx]
        exact h2 hpos last hlast
    · exact h1

/-! ### A concrete run falsifying the original C4, C5 and C6 claims

The stream holds 20000 constant ticks at mid 100 (filling the window
with zero variance), then a drop to 90 that triggers a LONG entry, and
for C4/C6 one further tick at 95 that keeps the position open so that
the end-of-stream force-close realizes a profit. -/

def tick100 : Tick := ⟨1, 100, 100, 0⟩

def tick90 : Tick := ⟨20001, 90, 90, 0⟩

def tick95 : Tick := ⟨20002, 95, 95, 0⟩

def cexStream : List Tick := List.replicate 20000 tick100 ++ [tick90, tick95]

def cexStream5 : List Tick := List.replicate 20000 tick100 ++ [tick90]

def stats20k : RollingStatistics := ⟨20000, 20000, 100, 0, 0⟩

def statsA : RollingStatistics := ⟨20000, 20001, 2000080/20001, 3999800/400040001, 0⟩

def statsB : RollingStatistics :=
  ⟨20000, 20002, 40003400110/400040001, 1999780010999750/160032002400080001, 0⟩

noncomputable def genInit : SignalGenerator := ⟨(5/2 : ℝ), Signal.FLAT, 0⟩

def btInit : Backtester := Backtester.init (21/10) 1

def btA : Backtester :=
  { commission := 21/10, slippage := 1/4, currentPosition := Signal.LONG,
    entryPrice := 361/4, entryTime := 20001, equity := 999979/10, peakEquity := 100000,
    maxDrawdown := 21/1000000, trades := [], equityCurve := [100000, 999979/10],
    equityTimestamps := [0, 20001] }

noncomputable def genA : SignalGenerator := ⟨5/2, Signal.LONG, statsA.zscore 90⟩

noncomputable def genB : SignalGenerator := ⟨5/2, Signal.LONG, statsB.zscore 95⟩

lemma mid100 : tick100.mid = 100 := by
  norm_num [Tick.mid, tick100]

lemma mid90 : tick90.mid = 90 := by
  norm_num [Tick.mid, tick90]

lemma mid95 : tick95.mid = 95 := by
  norm_num [Tick.mid, tick95]

lemma stats_first : (RollingStatistics.init 20000).update 100 = ⟨20000, 1, 100, 0, 0⟩ := by
  rw [update_zero _ _ (by norm_num [RollingStatistics.init]) rfl]
  rfl

lemma stats_const (k : Nat) (h1 : 1 ≤ k) (h2 : k < 20000) :
    (RollingStatistics.mk 20000 k 100 0 0).update 100 = ⟨20000, k + 1, 100, 0, 0⟩ := by
  rw [update_fill _ _ (by exact h2) (by show k ≠ 0; omega)]
  simp only [RollingStatistics.mk.injEq]
  norm_num

lemma stats_20k : stats20k.update 90 = statsA := by
  rw [update_ewma _ _ (by norm_num [stats20k])]
  simp only [stats20k, statsA, alpha, RollingStatistics.mk.injEq]
  norm_num

lemma stats_A : statsA.update 95 = statsB := by
  rw [update_ewma _ _ (by norm_num [statsA])]
  simp only [statsA, statsB, alpha, RollingStatistics.mk.injEq]
  norm_num

lemma gen_fill (c : Nat) (h1 : 1 ≤ c) (h2 : c ≤ 20000) :
    genInit.generate 100 ⟨20000, c, 100, 0, 0⟩ = (Signal.FLAT, genInit) := by
  rcases lt_or_eq_of_le h2 with h | h
  · unfold SignalGenerator.generate
    rw [if_pos (by simp [RollingStatistics.isReady]; omega)]
  · rw [generate_ready _ _ _ (by simp [RollingStatistics.isReady]; omega)]
    have hz : (RollingStatistics.mk 20000 c 100 0 0).zscore 100 = 0 :=
      zscore_of_zero_variance _ rfl _
    rw [hz]
    rw [show genInit.currentSignal = Signal.FLAT from rfl,
      show genInit.threshold = (5/2 : ℝ) from rfl, nextSignalSpec_flat,
      if_neg (by norm_num), if_neg (by norm_num)]
    rfl

lemma fill_step (k : Nat) (h1 : 1 ≤ k) (h2 : k + 1 ≤ 20000) :
    stepTick ⟨⟨20000, k, 100, 0, 0⟩, genInit, btInit⟩ tick100 =
      ⟨⟨20000, k + 1, 100, 0, 0⟩, genInit, btInit⟩ := by
  simp only [stepTick, mid100]
  rw [stats_const k h1 (by omega), gen_fill (k + 1) (by omega) h2]
  dsimp only
  rw [updatePosition_same btInit 100 tick100.timestamp Signal.FLAT rfl]

lemma fill_run (m : Nat) : ∀ k, 1 ≤ k → k + m ≤ 20000 →
    runTicks ⟨⟨20000, k, 100, 0, 0⟩, genInit, btInit⟩ (List.replicate m tick100) =
      ⟨⟨20000, k + m, 100, 0, 0⟩, genInit, btInit⟩ := by
  induction m with
  | zero =>
    intro k _ _
    rw [List.replicate_zero, runTicks_nil]
    rfl
  | succ m ih =>
    intro k h1 h2
    rw [List.replicate_succ, runTicks_cons, fill_step k h1 (by omega),
      ih (k + 1) (by omega) (by omega)]
    have he : k + 1 + m = k + (m + 1) := by omega
    rw [he]

lemma initState_eq :
    initState (21/10) 1 (5/2) = ⟨RollingStatistics.init 20000, genInit, btInit⟩ := rfl

lemma step_first : stepTick (initState (21/10) 1 (5/2)) tick100 =
    ⟨⟨20000, 1, 100, 0, 0⟩, genInit, btInit⟩ := by
  rw [initState_eq]
  simp only [stepTick, mid100]
  rw [stats_first, gen_fill 1 (by omega) (by omega)]
  dsimp only
  rw [updatePosition_same btInit 100 tick100.timestamp Signal.FLAT rfl]

lemma fill_all : runTicks (initState (21/10) 1 (5/2)) (List.replicate 20000 tick100) =
    ⟨stats20k, genInit, btInit⟩ := by
  rw [show (20000 : Nat) = 19999 + 1 from rfl, List.replicate_succ, runTicks_cons, step_first,
    fill_run 19999 1 (by omega) (by omega)]
  rfl

lemma statsA_sd : (1e-10 : ℝ) < statsA.stddev := by
  unfold RollingStatistics.stddev
  rw [show statsA.variance = (3999800/400040001 : ℚ) from rfl]
  refine (Real.lt_sqrt (by norm_num)).mpr ?_
  push_cast
  norm_num

lemma z1_lt : statsA.zscore 90 < -(5/2 : ℝ) := by
  unfold RollingStatistics.zscore
  rw [if_pos statsA_sd]
  have hsdpos : (0 : ℝ) < statsA.stddev := lt_trans (by norm_num) statsA_sd
  rw [div_lt_iff hsdpos]
  have hsdlt : statsA.stddev < 79996/20001 := by
    unfold RollingStatistics.stddev
    refine (Real.sqrt_lt' (by norm_num)).mpr ?_
    rw [show statsA.variance = (3999800/400040001 : ℚ) from rfl]
    push_cast
    norm_num
  rw [show statsA.mean = (2000080/20001 : ℚ) from rfl]
  push_cast
  nlinarith [hsdpos, hsdlt]

lemma statsB_sd : (1e-10 : ℝ) < statsB.stddev := by
  unfold RollingStatistics.stddev
  rw [show statsB.variance = (1999780010999750/160032002400080001 : ℚ) from rfl]
  refine (Real.lt_sqrt (by norm_num)).mpr ?_
  push_cast
  norm_num

lemma z2_neg : statsB.zscore 95 < 0 := by
  unfold RollingStatistics.zscore
  rw [if_pos statsB_sd]
  refine div_neg_of_neg_of_pos ?_ (lt_trans (by norm_num) statsB_sd)
  rw [show statsB.mean = (40003400110/400040001 : ℚ) from rfl]
  push_cast
  norm_num

lemma gen_tick90 : genInit.generate 90 statsA = (Signal.LONG, genA) := by
  rw [generate_ready _ _ _ (by simp [RollingStatistics.isReady, statsA])]
  rw [show genInit.currentSignal = Signal.FLAT from rfl,
    show genInit.threshold = (5/2 : ℝ) from rfl, nextSignalSpec_flat, if_pos z1_lt]
  rfl

lemma gen_tick95 : genA.generate 95 statsB = (Signal.LONG, genB) := by
  rw [generate_ready _ _ _ (by simp [RollingStatistics.isReady, statsB])]
  rw [show genA.currentSignal = Signal.LONG from rfl, nextSignalSpec_long,
    if_neg (not_le.mpr z2_neg)]
  rfl

lemma bt_tick90 : btInit.updatePosition 90 20001 Signal.LONG = btA := by
  rw [updatePosition_open_flat btInit 90 20001 Signal.LONG rfl
    (fun hc => Signal.noConfusion hc)
    (by norm_num [btInit, Backtester.init])
    (by norm_num [btInit, Backtester.init])]
  norm_num [Backtester.getFillPrice, btInit, Backtester.init, btA, tickSize,
    Backtester.mk.injEq]

lemma step_A : stepTick ⟨stats20k, genInit, btInit⟩ tick90 = ⟨statsA, genA, btA⟩ := by
  simp only [stepTick, mid90]
  rw [stats_20k, gen_tick90]
  rw [show tick90.timestamp = (20001 : ℤ) from rfl]
  rw [bt_tick90]

lemma step_B : stepTick ⟨statsA, genA, btA⟩ tick95 = ⟨statsB, genB, btA⟩ := by
  simp only [stepTick, mid95]
  rw [stats_A, gen_tick95]
  dsimp only
  rw [updatePosition_same btA 95 tick95.timestamp Signal.LONG rfl]

lemma run_cex : runTicks (initState (21/10) 1 (5/2)) cexStream = ⟨statsB, genB, btA⟩ := by
  unfold cexStream
  rw [runTicks_append, fill_all, runTicks_cons, step_A, runTicks_cons, step_B, runTicks_nil]

lemma run_cex5 : runTicks (initState (21/10) 1 (5/2)) cexStream5 = ⟨statsA, genA, btA⟩ := by
  unfold cexStream5
  rw [runTicks_append, fill_all, runTicks_cons, step_A, runTicks_nil]

lemma cex_last : cexStream.getLast? = some tick95 := by
  unfold cexStream
  rw [show List.replicate 20000 tick100 ++ [tick90, tick95] =
    (List.replicate 20000 tick100 ++ [tick90]) ++ [tick95] by rw [List.append_assoc]; rfl]
  exact List.getLast?_concat _

lemma cex5_last : cexStream5.getLast? = some tick90 := by
  unfold cexStream5
  exact List.getLast?_concat _

def btFinal : Backtester :=
  { btA with
      currentPosition := Signal.FLAT
      equity := 501104/5
      trades := [⟨20001, 20002, 361/4, 379/4, Signal.LONG, 2229/10, 1⟩] }

set_option maxRecDepth 4000 in
lemma close_cex : btA.closePosition 95 20002 = btFinal := by
  rw [closePosition_long btA 95 20002 rfl]
  norm_num [btA, btFinal, Backtester.mk.injEq, Trade.mk.injEq]

lemma runBacktest_cex : runBacktest (21/10) 1 (5/2) cexStream =
    { stats := statsB, gen := genB, bt := btFinal } := by
  unfold runBacktest
  rw [cex_last]
  dsimp only
  rw [run_cex]
  rw [if_pos (show btA.currentPosition ≠ Signal.FLAT from fun hc => Signal.noConfusion hc)]
  rw [show tick95.mid = (95 : ℚ) from mid95, show tick95.timestamp = (20002 : ℤ) from rfl]
  rw [close_cex]

/-- C4 counterexample: on the concrete stream the end-of-stream
force-close realizes a profit without updating peak_equity, leaving
peak_equity strictly below equity, so the claimed invariant fails after
that final update. -/
theorem claim_C4_counterexample :
    (runBacktest (21/10) 1 (5/2) cexStream).bt.peakEquity <
      (runBacktest (21/10) 1 (5/2) cexStream).bt.equity := by
  rw [runBacktest_cex]
  norm_num [btFinal, btA]

def tradeC5 : Trade := ⟨20001, 20001, 361/4, 359/4, Signal.LONG, -271/10, 0⟩

def btFinal5 : Backtester :=
  { btA with
      currentPosition := Signal.FLAT
      equity := 499854/5
      trades := [tradeC5] }

set_option maxRecDepth 4000 in
lemma close_cex5 : btA.closePosition 90 20001 = btFinal5 := by
  rw [closePosition_long btA 90 20001 rfl]
  norm_num [btA, btFinal5, tradeC5, Backtester.mk.injEq, Trade.mk.injEq]

lemma runBacktest_cex5 : runBacktest (21/10) 1 (5/2) cexStream5 =
    { stats := statsA, gen := genA, bt := btFinal5 } := by
  unfold runBacktest
  rw [cex5_last]
  dsimp only
  rw [run_cex5]
  rw [if_pos (show btA.currentPosition ≠ Signal.FLAT from fun hc => Signal.noConfusion hc)]
  rw [show tick90.mid = (90 : ℚ) from mid90, show tick90.timestamp = (20001 : ℤ) from rfl]
  rw [close_cex5]

lemma cex5_sorted : cexStream5.Pairwise (fun a b => a.timestamp ≤ b.timestamp) := by
  unfold cexStream5
  refine List.pairwise_append.mpr ⟨?_, ?_, ?_⟩
  · exact List.pairwise_replicate.mpr (Or.inr le_rfl)
  · simp
  · intro a ha b hb
    obtain rfl := List.eq_of_mem_replicate ha
    obtain rfl := List.mem_singleton.mp hb
    decide

/-- C5 witness: the amended theorem applied to the concrete sorted stream
cexStream5, whose recorded trade is tradeC5; its entry timestamp does not
exceed its exit timestamp. -/
theorem claim_C5_witness : tradeC5.entryTime ≤ tradeC5.exitTime :=
  claim_C5 (21/10) 1 (5/2) cexStream5 cex5_sorted tradeC5
    (by rw [runBacktest_cex5]; exact List.mem_singleton_self tradeC5)

/-- C5 counterexample: a position entered at the final tick is
force-closed at that same tick, producing a trade whose entry and exit
timestamps coincide, so entry_time < exit_time fails. -/
theorem claim_C5_counterexample :
    (runBacktest (21/10) 1 (5/2) cexStream5).bt.trades = [tradeC5] ∧
      ¬ tradeC5.entryTime < tradeC5.exitTime := by
  rw [runBacktest_cex5]
  exact ⟨rfl, by decide⟩

/-! ### C6 counterexample machinery: the transition stamps of the run -/

lemma transitionStamps_append (xs : List Tick) : ∀ (ys : List Tick) (st : PipelineState),
    transitionStamps st (xs ++ ys) =
      transitionStamps st xs ++ transitionStamps (runTicks st xs) ys := by
  induction xs with
  | nil =>
    intro ys st
    rw [List.nil_append, transitionStamps_nil, runTicks_nil, List.nil_append]
  | cons t rest ih =>
    intro ys st
    rw [List.cons_append, transitionStamps_cons, transitionStamps_cons, ih, runTicks_cons,
      List.append_assoc]

lemma transitionStamps_const (m : Nat) : ∀ k, 1 ≤ k → k + m ≤ 20000 →
    transitionStamps ⟨⟨20000, k, 100, 0, 0⟩, genInit, btInit⟩ (List.replicate m tick100) = [] := by
  induction m with
  | zero =>
    intro k _ _
    rw [List.replicate_zero, transitionStamps_nil]
  | succ m ih =>
    intro k h1 h2
    rw [List.replicate_succ, transitionStamps_cons, mid100, stats_const k h1 (by omega),
      gen_fill (k + 1) (by omega) (by omega), fill_step k h1 (by omega),
      ih (k + 1) (by omega) (by omega)]
    dsimp only
    rw [if_neg (show ¬ Signal.FLAT ≠ btInit.currentPosition from fun hc => hc rfl)]
    rfl

lemma stamps_first :
    transitionStamps (initState (21/10) 1 (5/2)) (List.replicate 20000 tick100) = [] := by
  rw [show (20000 : Nat) = 19999 + 1 from rfl, List.replicate_succ, transitionStamps_cons,
    step_first, transitionStamps_const 19999 1 (by omega) (by omega), initState_eq]
  dsimp only
  rw [mid100, stats_first, gen_fill 1 (by omega) (by omega)]
  dsimp only
  rw [if_neg (show ¬ Signal.FLAT ≠ btInit.currentPosition from fun hc => hc rfl)]
  rfl

lemma stamps_cex : transitionStamps (initState (21/10) 1 (5/2)) cexStream = [20001] := by
  unfold cexStream
  rw [transitionStamps_append, stamps_first, fill_all, List.nil_append]
  rw [transitionStamps_cons, mid90, stats_20k, gen_tick90, step_A]
  dsimp only
  rw [if_pos (show Signal.LONG ≠ btInit.currentPosition from fun hc => Signal.noConfusion hc)]
  rw [transitionStamps_cons, mid95, stats_A, gen_tick95]
  dsimp only
  rw [if_neg (show ¬ Signal.LONG ≠ btA.currentPosition from fun hc => hc rfl)]
  rw [transitionStamps_nil]
  rfl

lemma claimed_cex : claimedTransitionStamps (21/10) 1 (5/2) cexStream = [20001, 20002] := by
  unfold claimedTransitionStamps
  rw [cex_last]
  dsimp only
  rw [run_cex]
  rw [if_pos (show btA.currentPosition ≠ Signal.FLAT from fun hc => Signal.noConfusion hc)]
  rw [stamps_cex]
  rfl

/-- C6 counterexample: on the concrete stream the equity curve holds the
initial point stamped 0 plus the single entry transition, while the
position transitions (the entry and the end-of-stream force-close) are
stamped 20001 and 20002, so the curve does not contain exactly one point
per transition stamped with the transition's tick. -/
theorem claim_C6_counterexample :
    (runBacktest (21/10) 1 (5/2) cexStream).bt.equityTimestamps ≠
      claimedTransitionStamps (21/10) 1 (5/2) cexStream ∧
    (runBacktest (21/10) 1 (5/2) cexStream).bt.equityTimestamps = [0, 20001] ∧
    claimedTransitionStamps (21/10) 1 (5/2) cexStream = [20001, 20002] := by
  have h1 : (runBacktest (21/10) 1 (5/2) cexStream).bt.equityTimestamps = [0, 20001] := by
    rw [runBacktest_cex]
    rfl
  refine ⟨?_, h1, claimed_cex⟩
  rw [h1, claimed_cex]
  decide

end Artemist
